import Mathlib

/-!
# SortForge event-sourced playback subsystem: a shallow embedding

This file embeds the core of the SortForge visualizer in Lean 4 and proves
properties of that embedding:

* the semantic event model and its inverse (`web-ui/src/types/events.ts`),
* the materializing engine `PregenEngine` and the streaming engine
  `LiveEngine` (`web-ui/src/engines/`),
* the playback `AnimationController` (array application, visual-state
  derivation, stepping and seeking, speed clamping).

Modelling conventions:

* JS `number` array indices coming from the Rust core's `usize` fields are
  `Nat`; element values are `Int`; the streaming engine's position counters
  are `Int` (JS numbers that are compared and subtracted, never used as an
  index until proven non-negative).
* The controller's working array is a `List Int`; `List.set` is used for
  element assignment and `List.getD`/`List.get?` for reads.  All claims below
  concern in-bounds indices, where these agree with JS array semantics.
* All operations are total Lean functions; the absence of thrown exceptions
  in the corresponding TS code is reflected by totality (out-of-window
  lookups return `none`, out-of-range seeks clamp or no-op).
-/

set_option maxHeartbeats 1000000

/-- TS `SortEvent` from `web-ui/src/types/events.ts` (mirroring the Rust
`SortEvent` enum): the closed vocabulary of semantic algorithm actions. -/
inductive SortEvent : Type where
  | Swap (i j : Nat)
  | Overwrite (idx : Nat) (old_val new_val : Int)
  | Compare (i j : Nat)
  | EnterRange (lo hi : Nat)
  | ExitRange (lo hi : Nat)
  | Done
  deriving DecidableEq, Repr

/-- TS `inverseEvent` from `web-ui/src/types/events.ts`: the inverse of a sort
event for rewinding.  The `default` branch of the TS `switch` (Compare, Done)
returns the event itself. -/
def inverseEvent (event : SortEvent) : SortEvent :=
  match event with
  | .Swap i j => .Swap i j
  | .Overwrite idx old_val new_val => .Overwrite idx new_val old_val
  | .EnterRange lo hi => .ExitRange lo hi
  | .ExitRange lo hi => .EnterRange lo hi
  | .Compare i j => .Compare i j
  | .Done => .Done

/-- TS `isMutationEvent` from `web-ui/src/types/events.ts`. -/
def isMutationEvent (event : SortEvent) : Bool :=
  match event with
  | .Swap _ _ => true
  | .Overwrite _ _ _ => true
  | _ => false

/-- The part of the `AnimationController` state that `applyEventToArray`
reads and writes: the working array, the active-range stack and the active
range.  The head of `rangeStack` models the top (last pushed element) of the
JS array used as a stack. -/
structure ArrState : Type where
  array : List Int
  rangeStack : List (Nat × Nat)
  activeRange : Option (Nat × Nat)
  deriving DecidableEq, Repr

/-- TS `AnimationController.applyEventToArray`: applies a single event to the
working array / range-stack state.  `Swap` reads both elements before
writing (the TS code buffers `array[i]` in `temp`), `Overwrite` writes
`new_val`, `EnterRange` pushes and `ExitRange` pops the range stack, with
`activeRange` tracking the new stack top (or `none` when empty).
`Compare` and `Done` leave the state unchanged. -/
def applyEventToArray (event : SortEvent) (s : ArrState) : ArrState :=
  match event with
  | .Swap i j =>
      let temp := s.array.getD i 0
      { s with array := (s.array.set i (s.array.getD j 0)).set j temp }
  | .Overwrite idx _ new_val =>
      { s with array := s.array.set idx new_val }
  | .EnterRange lo hi =>
      { s with rangeStack := (lo, hi) :: s.rangeStack,
               activeRange := some (lo, hi) }
  | .ExitRange _ _ =>
      { s with rangeStack := s.rangeStack.tail,
               activeRange := s.rangeStack.tail.head? }
  | _ => s

/-- Consistency of an event with an array state: the conditions under which
the event could have been legitimately produced at this state.  For
`Overwrite` this is the spec's invariant that `old_val` is the array's value
at `idx`; for `Swap` that both indices are in bounds; for the range events
that `activeRange` agrees with the top of the range stack (which
`applyEventToArray` maintains) and, for `ExitRange`, that it pops the
matching `EnterRange`. -/
abbrev eventConsistent (event : SortEvent) (s : ArrState) : Prop :=
  match event with
  | .Swap i j => i < s.array.length ∧ j < s.array.length
  | .Overwrite idx old_val _ => s.array[idx]? = some old_val
  | .EnterRange _ _ => s.activeRange = s.rangeStack.head?
  | .ExitRange lo hi =>
      s.rangeStack.head? = some (lo, hi) ∧ s.activeRange = some (lo, hi)
  | _ => True

-- Helper lemmas about `List.set` used for the round-trip law.

theorem list_set_getElem?_self {l : List Int} {i : Nat} {v : Int}
    (h : l[i]? = some v) : l.set i v = l := by
  have hi : i < l.length := by
    by_contra hc
    rw [List.getElem?_eq_none (Nat.le_of_not_lt hc)] at h
    exact Option.noConfusion h
  apply List.ext_getElem?
  intro n
  rw [List.getElem?_set]
  split
  · next heq =>
      subst heq
      simp [hi, h]
  · rfl

theorem list_swap_involutive {l : List Int} {i j : Nat}
    (hi : i < l.length) (hj : j < l.length) :
    let l₁ := (l.set i (l.getD j 0)).set j (l.getD i 0)
    (l₁.set i (l₁.getD j 0)).set j (l₁.getD i 0) = l := by
  intro l₁
  have hlen : l₁.length = l.length := by
    show ((l.set i (l.getD j 0)).set j (l.getD i 0)).length = l.length
    simp
  have h1j : l₁[j]? = some (l.getD i 0) := by
    show ((l.set i (l.getD j 0)).set j (l.getD i 0))[j]? = _
    rw [List.getElem?_set, if_pos rfl, List.length_set, if_pos hj]
  have h1i : l₁[i]? = some (l.getD j 0) := by
    rcases eq_or_ne j i with rfl | hne
    · rw [h1j]
    · show ((l.set i (l.getD j 0)).set j (l.getD i 0))[i]? = _
      rw [List.getElem?_set, if_neg hne, List.getElem?_set, if_pos rfl, if_pos hi]
  have hgd1j : l₁.getD j 0 = l.getD i 0 := by
    rw [List.getD_eq_getElem?_getD, h1j]; rfl
  have hgd1i : l₁.getD i 0 = l.getD j 0 := by
    rw [List.getD_eq_getElem?_getD, h1i]; rfl
  rw [hgd1j, hgd1i]
  apply List.ext_getElem?
  intro n
  rw [List.getElem?_set]
  split
  · next hjn =>
      subst hjn
      rw [List.length_set, hlen, if_pos hj,
        List.getD_eq_getElem?_getD, List.getElem?_eq_getElem hj]
      rfl
  · next hjn =>
      rw [List.getElem?_set]
      split
      · next hin =>
          subst hin
          rw [hlen, if_pos hi,
            List.getD_eq_getElem?_getD, List.getElem?_eq_getElem hi]
          rfl
      · next hin =>
          show ((l.set i (l.getD j 0)).set j (l.getD i 0))[n]? = l[n]?
          rw [List.getElem?_set, if_neg hjn, List.getElem?_set, if_neg hin]

/-- C2: `inverseEvent` matches the spec's inverse table on every constructor
and is an involution. -/
theorem inverseEvent_table_and_involution :
    (∀ i j, inverseEvent (.Swap i j) = .Swap i j) ∧
    (∀ idx old_val new_val,
      inverseEvent (.Overwrite idx old_val new_val) =
        .Overwrite idx new_val old_val) ∧
    (∀ i j, inverseEvent (.Compare i j) = .Compare i j) ∧
    (∀ lo hi, inverseEvent (.EnterRange lo hi) = .ExitRange lo hi) ∧
    (∀ lo hi, inverseEvent (.ExitRange lo hi) = .EnterRange lo hi) ∧
    inverseEvent .Done = .Done ∧
    (∀ e : SortEvent, inverseEvent (inverseEvent e) = e) := by
  refine ⟨fun i j => rfl, fun idx o n => rfl, fun i j => rfl,
    fun lo hi => rfl, fun lo hi => rfl, rfl, fun e => ?_⟩
  cases e <;> rfl

/-- C1 (counterexample): applying an event and then its inverse is *not* the
identity on every array state.  With working array `[3]`, applying
`Overwrite 0 5 7` and then its inverse `Overwrite 0 7 5` produces `[5]`,
not `[3]`: the recorded `old_val` did not match the array. -/
theorem applyEvent_roundTrip_not_identity :
    applyEventToArray (inverseEvent (.Overwrite 0 5 7))
        (applyEventToArray (.Overwrite 0 5 7) ⟨[3], [], none⟩) ≠
      (⟨[3], [], none⟩ : ArrState) := by
  decide

/-- C1 (amended): applying an event and then its inverse via
`applyEventToArray` is the identity on every array state *consistent with
the event*: in-bounds `Swap`, `Overwrite` whose `old_val` is the current
array value, and range events that agree with the range stack. -/
theorem applyEvent_then_inverse_id (event : SortEvent) (s : ArrState)
    (h : eventConsistent event s) :
    applyEventToArray (inverseEvent event) (applyEventToArray event s) = s := by
  cases event with
  | Swap i j =>
      obtain ⟨hi, hj⟩ := h
      simp only [inverseEvent, applyEventToArray]
      have := list_swap_involutive (l := s.array) hi hj
      cases s
      simp_all
  | Overwrite idx old_val new_val =>
      simp only [inverseEvent, applyEventToArray, List.set_set]
      cases s with
      | mk a r ar =>
        simp only [ArrState.mk.injEq, and_true]
        exact list_set_getElem?_self h
  | Compare i j => rfl
  | EnterRange lo hi =>
      simp only [eventConsistent] at h
      cases s with
      | mk a r ar =>
        simp only [inverseEvent, applyEventToArray, List.tail_cons]
        simp only at h
        rw [h]
  | ExitRange lo hi =>
      obtain ⟨htop, har⟩ := h
      cases s with
      | mk a r ar =>
        cases r with
        | nil => simp at htop
        | cons t r' =>
          simp only [List.head?_cons, Option.some.injEq] at htop
          simp only at har
          simp only [inverseEvent, applyEventToArray, List.tail_cons]
          rw [htop, har]
  | Done => rfl

/-- Witness for the amended C1 at a concrete consistent input. -/
theorem applyEvent_then_inverse_id_witness :
    eventConsistent (.Overwrite 0 3 7) (⟨[3], [], none⟩ : ArrState) ∧
      applyEventToArray (inverseEvent (.Overwrite 0 3 7))
        (applyEventToArray (.Overwrite 0 3 7) ⟨[3], [], none⟩) =
        (⟨[3], [], none⟩ : ArrState) :=
  ⟨by decide, applyEvent_then_inverse_id (.Overwrite 0 3 7) ⟨[3], [], none⟩
    (by decide)⟩

/-! ## Configuration constants (`web-ui/src/config.ts`)

Playback speeds are JS numbers manipulated only by `Math.max`/`Math.min`
and one division; they are modelled as rationals. -/

def SPEED_DEFAULT : ℚ := 1

def SPEED_MIN : ℚ := 1 / 10

def SPEED_MAX : ℚ := 10

def BASE_EVENTS_PER_SECOND : ℚ := 60

/-- TS `msPerEvent` as computed in `AnimationController.startAnimationLoop`:
`1000 / (BASE_EVENTS_PER_SECOND * this.speed)`. -/
def msPerEvent (speed : ℚ) : ℚ := 1000 / (BASE_EVENTS_PER_SECOND * speed)

/-! ## The materializing engine (`PregenEngine`)

`initialize` runs the Wasm algorithm provider (`pregen_sort`) to completion
and stores the resulting event list; the provider is external to this core,
so the engine model is parametrized by the event list it returns. -/

/-- The state of `PregenEngine`: the materialized event list, the read
cursor, and the ready flag (named `initialized` in the TS source). -/
structure PregenEngine : Type where
  events : List SortEvent
  position : Nat
  ready : Bool
  deriving DecidableEq, Repr

/-- TS `PregenEngine.initialize` (post-state): stores the provider's full event
sequence, cursor at 0, marked ready. -/
def PregenEngine.init (events : List SortEvent) : PregenEngine :=
  { events := events, position := 0, ready := true }

/-- TS `PregenEngine.canSeek` is the constant `true`. -/
def PregenEngine.canSeek : Bool := true

/-- TS `PregenEngine.getNextEvents`: slices up to `count` events from the
cursor and advances it; returns `[]` when not ready. -/
def PregenEngine.getNextEvents (count : Nat) (s : PregenEngine) :
    List SortEvent × PregenEngine :=
  if s.ready = false then ([], s)
  else
    let endPos := min (s.position + count) s.events.length
    let batch := (s.events.drop s.position).take (endPos - s.position)
    (batch, { s with position := endPos })

/-- TS `PregenEngine.getEventAt`: direct index lookup, `none` outside
`[0, events.length)`. -/
def PregenEngine.getEventAt (index : Int) (s : PregenEngine) :
    Option SortEvent :=
  if index < 0 ∨ (s.events.length : Int) ≤ index then none
  else s.events[index.toNat]?

/-- TS `PregenEngine.getTotalEvents`: the exact total. -/
def PregenEngine.getTotalEvents (s : PregenEngine) : Nat := s.events.length

/-- TS `PregenEngine.seek`: clamps the cursor into `[0, events.length]`
(`Math.max(0, Math.min(position, this.events.length))`). -/
def PregenEngine.seek (position : Int) (s : PregenEngine) : PregenEngine :=
  { s with position := (max 0 (min position (s.events.length : Int))).toNat }

/-- TS `PregenEngine.reset`: cursor back to 0. -/
def PregenEngine.reset (s : PregenEngine) : PregenEngine :=
  { s with position := 0 }

/-- TS `PregenEngine.isDone`: `position >= events.length`. -/
def PregenEngine.isDone (s : PregenEngine) : Bool :=
  s.events.length ≤ s.position

/-! ## The playback controller (`AnimationController`)

The controller is modelled here driving a `PregenEngine` (the seekable
variant, `canSeek = true`), which is the configuration the seeking and
stepping claims are about.  Side-effect-only calls (`notifyListeners`,
`render`, `stopAnimationLoop`) carry no model state and are omitted. -/

inductive PlaybackState : Type where
  | idle | playing | paused | done
  deriving DecidableEq, Repr

inductive PlaybackDirection : Type where
  | forward | backward
  deriving DecidableEq, Repr

/-- TS `HighlightKind` from `web-ui/src/renderer/types.ts`. -/
inductive HighlightKind : Type where
  | comparing | swapping | writing
  deriving DecidableEq, Repr

/-- TS `Highlight` from `web-ui/src/renderer/types.ts`. -/
structure Highlight : Type where
  kind : HighlightKind
  indices : List Nat
  deriving DecidableEq, Repr

/-- The `AnimationController` state.  `arrSt` bundles the three fields that
`applyEventToArray` touches (`array`, `rangeStack`, `activeRange`). -/
structure Ctrl : Type where
  engine : PregenEngine
  initialArray : List Int
  arrSt : ArrState
  highlights : List Highlight
  isSorted : Bool
  currentStep : Nat
  totalSteps : Nat
  playbackState : PlaybackState
  direction : PlaybackDirection
  speed : ℚ
  deriving DecidableEq, Repr

/-- TS `AnimationController.applyVisualState`: visual state as a function of a
single event.  The TS code first clears `isSorted` and `highlights`, then
the `switch` sets them for `Compare`, `Swap`, `Overwrite` and `Done`;
`EnterRange`/`ExitRange` fall through the `switch` and keep the cleared
values. -/
def Ctrl.applyVisualState (event : SortEvent) (c : Ctrl) : Ctrl :=
  match event with
  | .Compare i j =>
      { c with isSorted := false, highlights := [⟨.comparing, [i, j]⟩] }
  | .Swap i j =>
      { c with isSorted := false, highlights := [⟨.swapping, [i, j]⟩] }
  | .Overwrite idx _ _ =>
      { c with isSorted := false, highlights := [⟨.writing, [idx]⟩] }
  | .Done => { c with isSorted := true, highlights := [] }
  | _ => { c with isSorted := false, highlights := [] }

/-- TS `AnimationController.applyEvent`: array application followed by visual
derivation. -/
def Ctrl.applyEvent (event : SortEvent) (c : Ctrl) : Ctrl :=
  Ctrl.applyVisualState event { c with arrSt := applyEventToArray event c.arrSt }

/-- TS `AnimationController.applyVisualStateForStep`. -/
def Ctrl.applyVisualStateForStep (step : Nat) (c : Ctrl) : Ctrl :=
  if step = 0 then { c with isSorted := false, highlights := [] }
  else
    match PregenEngine.getEventAt ((step : Int) - 1) c.engine with
    | some e => Ctrl.applyVisualState e c
    | none => { c with isSorted := false, highlights := [] }

/-- TS `AnimationController.stepForward`, `engine.canSeek` branch (the
materializing engine). -/
def Ctrl.stepForward (c : Ctrl) : Ctrl :=
  if c.totalSteps ≤ c.currentStep then c
  else
    match PregenEngine.getEventAt (c.currentStep : Int) c.engine with
    | none => c
    | some event =>
        let c₁ := Ctrl.applyEvent event c
        let c₂ := { c₁ with currentStep := c₁.currentStep + 1 }
        let c₃ :=
          { c₂ with engine := PregenEngine.seek (c₂.currentStep : Int) c₂.engine }
        if c₃.totalSteps ≤ c₃.currentStep then
          { c₃ with playbackState := .done }
        else c₃

/-- TS `AnimationController.stepBackward`. -/
def Ctrl.stepBackward (c : Ctrl) : Ctrl :=
  if c.currentStep = 0 then c
  else
    let targetStep := c.currentStep - 1
    match PregenEngine.getEventAt (targetStep : Int) c.engine with
    | none => c
    | some event =>
        let c₁ := { c with currentStep := targetStep,
                           arrSt := applyEventToArray (inverseEvent event) c.arrSt }
        let c₂ := Ctrl.applyVisualStateForStep targetStep c₁
        let c₃ :=
          { c₂ with engine := PregenEngine.seek (targetStep : Int) c₂.engine }
        if c₃.playbackState = .done then { c₃ with playbackState := .paused }
        else c₃

/-- TS `AnimationController.resetArrayState`. -/
def Ctrl.resetArrayState (array : List Int) (c : Ctrl) : Ctrl :=
  { c with arrSt := { array := array, rangeStack := [], activeRange := none },
           isSorted := false, highlights := [] }

/-- The replay loop inside `AnimationController.seekTo`:
`for (let i = 0; i < targetStep; i++) { const event = getEventAt(i); if (event) applyEventToArray(event); }`. -/
def Ctrl.seekReplay (engine : PregenEngine) (target : Nat) (s : ArrState) :
    ArrState :=
  (List.range target).foldl
    (fun (st : ArrState) (i : Nat) =>
      match PregenEngine.getEventAt (i : Int) engine with
      | some e => applyEventToArray e st
      | none => st) s

/-- TS `AnimationController.seekTo` (the engine is seekable): clamp the target
into `[0, totalSteps]`, rebuild the working array by replaying `[0, target)`
from the initial array, derive the visual state from event `target - 1`,
move the cursor, and update the playback state. -/
def Ctrl.seekTo (step : Int) (c : Ctrl) : Ctrl :=
  let target : Nat := (max 0 (min step (c.totalSteps : Int))).toNat
  let c₁ := Ctrl.resetArrayState c.initialArray c
  let c₂ := { c₁ with arrSt := Ctrl.seekReplay c₁.engine target c₁.arrSt }
  let c₃ :=
    if 0 < target ∧ target ≤ c₂.totalSteps then
      match PregenEngine.getEventAt ((target : Int) - 1) c₂.engine with
      | some e => Ctrl.applyVisualState e c₂
      | none => c₂
    else c₂
  let c₄ := { c₃ with currentStep := target }
  let c₅ := { c₄ with engine := PregenEngine.seek (target : Int) c₄.engine }
  if c₅.totalSteps ≤ c₅.currentStep then { c₅ with playbackState := .done }
  else if c₅.playbackState = .done then { c₅ with playbackState := .paused }
  else c₅

/-- TS `AnimationController.setSpeed`:
`this.speed = Math.max(SPEED_MIN, Math.min(SPEED_MAX, speed))`. -/
def Ctrl.setSpeed (speed : ℚ) (c : Ctrl) : Ctrl :=
  { c with speed := max SPEED_MIN (min SPEED_MAX speed) }

/-- TS `AnimationController.reset`. -/
def Ctrl.reset (c : Ctrl) : Ctrl :=
  let c₁ := Ctrl.resetArrayState c.initialArray c
  let c₂ := { c₁ with currentStep := 0, engine := PregenEngine.reset c₁.engine }
  let c₃ := { c₂ with totalSteps := PregenEngine.getTotalEvents c₂.engine }
  if c₃.playbackState = .done then { c₃ with playbackState := .idle } else c₃

/-- The controller state right after `AnimationController.initialize` with a
materializing engine whose provider produced `events` on input `array`. -/
def Ctrl.init (events : List SortEvent) (array : List Int) : Ctrl :=
  { engine := PregenEngine.init events,
    initialArray := array,
    arrSt := { array := array, rangeStack := [], activeRange := none },
    highlights := [], isSorted := false,
    currentStep := 0, totalSteps := events.length,
    playbackState := .idle, direction := .forward,
    speed := SPEED_DEFAULT }

/-- The controller operations reachable from the UI that are modelled here;
used to state speed invariance over arbitrary operation sequences. -/
inductive CtrlOp : Type where
  | setSpeed (x : ℚ)
  | stepForward
  | stepBackward
  | seekTo (step : Int)
  | reset
  deriving Repr

def Ctrl.applyOp (op : CtrlOp) (c : Ctrl) : Ctrl :=
  match op with
  | .setSpeed x => Ctrl.setSpeed x c
  | .stepForward => Ctrl.stepForward c
  | .stepBackward => Ctrl.stepBackward c
  | .seekTo step => Ctrl.seekTo step c
  | .reset => Ctrl.reset c

def Ctrl.applyOps (ops : List CtrlOp) (c : Ctrl) : Ctrl :=
  ops.foldl (fun c op => Ctrl.applyOp op c) c

-- Small facts about the controller's pieces, used repeatedly below.

theorem applyVisualState_arrSt (e : SortEvent) (c : Ctrl) :
    (Ctrl.applyVisualState e c).arrSt = c.arrSt := by
  cases e <;> rfl

theorem applyVisualState_speed (e : SortEvent) (c : Ctrl) :
    (Ctrl.applyVisualState e c).speed = c.speed := by
  cases e <;> rfl

theorem applyEvent_speed (e : SortEvent) (c : Ctrl) :
    (Ctrl.applyEvent e c).speed = c.speed := by
  cases e <;> rfl

theorem applyEvent_arrSt (e : SortEvent) (c : Ctrl) :
    (Ctrl.applyEvent e c).arrSt = applyEventToArray e c.arrSt := by
  cases e <;> rfl

theorem pregen_getEventAt_lt {s : PregenEngine} {n : Nat}
    (h : n < s.events.length) :
    PregenEngine.getEventAt (n : Int) s = some s.events[n] := by
  unfold PregenEngine.getEventAt
  rw [if_neg, Int.toNat_natCast, List.getElem?_eq_getElem h]
  push_neg
  constructor
  · exact Int.natCast_nonneg n
  · exact_mod_cast h

theorem applyEvent_currentStep (e : SortEvent) (c : Ctrl) :
    (Ctrl.applyEvent e c).currentStep = c.currentStep := by
  cases e <;> rfl

theorem applyEvent_engine (e : SortEvent) (c : Ctrl) :
    (Ctrl.applyEvent e c).engine = c.engine := by
  cases e <;> rfl

theorem applyEvent_totalSteps (e : SortEvent) (c : Ctrl) :
    (Ctrl.applyEvent e c).totalSteps = c.totalSteps := by
  cases e <;> rfl

theorem pregen_seek_events (p : Int) (s : PregenEngine) :
    (PregenEngine.seek p s).events = s.events := rfl

/-- One in-range `stepForward` against a seekable engine: it applies the
event at the cursor to the array state, advances the step counter, and
leaves the event list and total unchanged. -/
theorem stepForward_state (c : Ctrl)
    (hts : c.totalSteps = c.engine.events.length)
    (h : c.currentStep < c.totalSteps) :
    (Ctrl.stepForward c).arrSt =
        applyEventToArray c.engine.events[c.currentStep] c.arrSt ∧
    (Ctrl.stepForward c).currentStep = c.currentStep + 1 ∧
    (Ctrl.stepForward c).engine.events = c.engine.events ∧
    (Ctrl.stepForward c).totalSteps = c.totalSteps := by
  have hlt : c.currentStep < c.engine.events.length := hts ▸ h
  unfold Ctrl.stepForward
  rw [if_neg (Nat.not_le.mpr h), pregen_getEventAt_lt hlt]
  dsimp only
  split <;>
    refine ⟨applyEvent_arrSt _ _,
      congrArg (· + 1) (applyEvent_currentStep _ _), ?_,
      applyEvent_totalSteps _ _⟩ <;>
    exact (pregen_seek_events _ _).trans
      (congrArg PregenEngine.events (applyEvent_engine _ _))

/-- Iterating `stepForward` `n` times folds `applyEventToArray` over the
`n` events starting at the cursor. -/
theorem stepForward_iterate (n : Nat) :
    ∀ c : Ctrl, c.totalSteps = c.engine.events.length →
      c.currentStep + n ≤ c.totalSteps →
      (Ctrl.stepForward^[n] c).arrSt =
        ((c.engine.events.drop c.currentStep).take n).foldl
          (fun st e => applyEventToArray e st) c.arrSt := by
  induction n with
  | zero => intro c _ _; simp
  | succ n ih =>
      intro c hts h
      rw [Function.iterate_succ_apply]
      have h1 : c.currentStep < c.totalSteps := by omega
      obtain ⟨ha, hcs, hev, hts'⟩ := stepForward_state c hts h1
      have hts2 : (Ctrl.stepForward c).totalSteps =
          (Ctrl.stepForward c).engine.events.length := by
        rw [hts', hev, hts]
      have h2 : (Ctrl.stepForward c).currentStep + n ≤
          (Ctrl.stepForward c).totalSteps := by
        rw [hcs, hts']; omega
      rw [ih (Ctrl.stepForward c) hts2 h2, ha, hcs, hev]
      have hlt : c.currentStep < c.engine.events.length := hts ▸ h1
      rw [List.drop_eq_getElem_cons hlt, List.take_succ_cons, List.foldl_cons]

/-- The replay loop of `seekTo` folds `applyEventToArray` over the first
`target` events when the target is within the materialized sequence. -/
theorem seekReplay_eq_foldl (engine : PregenEngine) (target : Nat) :
    target ≤ engine.events.length → ∀ s : ArrState,
      Ctrl.seekReplay engine target s =
        (engine.events.take target).foldl
          (fun st e => applyEventToArray e st) s := by
  induction target with
  | zero => intro _ s; simp [Ctrl.seekReplay]
  | succ n ih =>
      intro h s
      have hlt : n < engine.events.length := by omega
      unfold Ctrl.seekReplay at ih ⊢
      rw [List.range_succ, List.foldl_append, ih (by omega) s,
        List.foldl_cons, List.foldl_nil, pregen_getEventAt_lt hlt,
        List.take_succ, List.getElem?_eq_getElem hlt, List.foldl_append]
      simp

theorem applyVisualState_engine (e : SortEvent) (c : Ctrl) :
    (Ctrl.applyVisualState e c).engine = c.engine := by
  cases e <;> rfl

theorem applyVisualState_totalSteps (e : SortEvent) (c : Ctrl) :
    (Ctrl.applyVisualState e c).totalSteps = c.totalSteps := by
  cases e <;> rfl

/-- TS `seekTo` rebuilds the array state by replaying from the initial array up
to the clamped target, sets the step counter to the target, and leaves the
event list and the total unchanged. -/
theorem seekTo_proj (p : Int) (c : Ctrl) :
    (Ctrl.seekTo p c).arrSt =
        Ctrl.seekReplay c.engine ((max 0 (min p (c.totalSteps : Int))).toNat)
          { array := c.initialArray, rangeStack := [], activeRange := none } ∧
    (Ctrl.seekTo p c).currentStep = (max 0 (min p (c.totalSteps : Int))).toNat ∧
    (Ctrl.seekTo p c).engine.events = c.engine.events ∧
    (Ctrl.seekTo p c).totalSteps = c.totalSteps := by
  unfold Ctrl.seekTo Ctrl.resetArrayState
  dsimp only
  refine ⟨?_, ?_, ?_, ?_⟩ <;>
    (repeat' split) <;>
    simp [applyVisualState_arrSt, applyVisualState_engine,
      applyVisualState_totalSteps, pregen_seek_events]

/-- C4: for a materializing engine with event list `events` and any
`p ≤ events.length`, seeking straight to `p` and seeking to `0` then
stepping forward `p` times produce identical working arrays. -/
theorem seekTo_eq_seekZero_then_stepForward (events : List SortEvent)
    (array : List Int) (p : Nat) (hp : p ≤ events.length) :
    (Ctrl.seekTo (p : Int) (Ctrl.init events array)).arrSt.array =
      (Ctrl.stepForward^[p] (Ctrl.seekTo 0 (Ctrl.init events array))).arrSt.array := by
  obtain ⟨ha, hcs, hev, hts⟩ := seekTo_proj (p : Int) (Ctrl.init events array)
  obtain ⟨ha0, hcs0, hev0, hts0⟩ := seekTo_proj 0 (Ctrl.init events array)
  have hT : (Ctrl.init events array).totalSteps = events.length := rfl
  have hE : (Ctrl.init events array).engine = PregenEngine.init events := rfl
  have hI : (Ctrl.init events array).initialArray = array := rfl
  have hEv : (PregenEngine.init events).events = events := rfl
  rw [hT, hE, hI] at ha ha0
  rw [hT] at hcs hcs0 hts hts0
  rw [hE, hEv] at hev hev0
  have htgt : (max 0 (min (p : Int) (events.length : Int))).toNat = p := by
    omega
  have htgt0 : (max 0 (min (0 : Int) (events.length : Int))).toNat = 0 := by
    omega
  rw [htgt] at ha
  rw [htgt0] at ha0 hcs0
  have hiter := stepForward_iterate p (Ctrl.seekTo 0 (Ctrl.init events array))
    (by rw [hts0, hev0]) (by rw [hcs0, hts0]; omega)
  rw [hiter, hcs0, hev0, ha0, ha,
    seekReplay_eq_foldl _ _ hp, seekReplay_eq_foldl _ _ (Nat.zero_le _)]
  simp [hEv]

/-- C5: input `[3,1,2]` with events
`[Compare(0,1), Swap(0,1), Compare(1,2), Done]`: two forward steps yield
array `[1,3,2]` with a "swapping" highlight on `{0,1}`; one backward step
restores `[3,1,2]` with a "comparing" highlight on `{0,1}` at position 1. -/
theorem scenario_two_steps_then_back :
    (Ctrl.stepForward (Ctrl.stepForward
        (Ctrl.init [.Compare 0 1, .Swap 0 1, .Compare 1 2, .Done]
          [3, 1, 2]))).arrSt.array = [1, 3, 2] ∧
    (Ctrl.stepForward (Ctrl.stepForward
        (Ctrl.init [.Compare 0 1, .Swap 0 1, .Compare 1 2, .Done]
          [3, 1, 2]))).highlights = [⟨.swapping, [0, 1]⟩] ∧
    (Ctrl.stepBackward (Ctrl.stepForward (Ctrl.stepForward
        (Ctrl.init [.Compare 0 1, .Swap 0 1, .Compare 1 2, .Done]
          [3, 1, 2])))).arrSt.array = [3, 1, 2] ∧
    (Ctrl.stepBackward (Ctrl.stepForward (Ctrl.stepForward
        (Ctrl.init [.Compare 0 1, .Swap 0 1, .Compare 1 2, .Done]
          [3, 1, 2])))).highlights = [⟨.comparing, [0, 1]⟩] ∧
    (Ctrl.stepBackward (Ctrl.stepForward (Ctrl.stepForward
        (Ctrl.init [.Compare 0 1, .Swap 0 1, .Compare 1 2, .Done]
          [3, 1, 2])))).currentStep = 1 := by
  decide

/-- C7 (amended): the visual state derived by `applyEvent` (array
application plus `applyVisualState`) per event constructor: `Compare` sets a
"comparing" highlight, `Swap` a "swapping" one, `Overwrite` a "writing" one,
`Done` marks the array sorted; `EnterRange`/`ExitRange` push/pop the
active-range stack and, like any other event, leave the highlights cleared
(`applyVisualState` resets them before its `switch`). -/
theorem applyEvent_visual_derivation (c : Ctrl) (i j idx : Nat)
    (old_val new_val : Int) (lo hi : Nat) :
    ((Ctrl.applyEvent (.Compare i j) c).highlights =
        [⟨.comparing, [i, j]⟩] ∧
      (Ctrl.applyEvent (.Compare i j) c).isSorted = false ∧
      (Ctrl.applyEvent (.Compare i j) c).arrSt = c.arrSt) ∧
    ((Ctrl.applyEvent (.Swap i j) c).highlights = [⟨.swapping, [i, j]⟩] ∧
      (Ctrl.applyEvent (.Swap i j) c).isSorted = false) ∧
    ((Ctrl.applyEvent (.Overwrite idx old_val new_val) c).highlights =
        [⟨.writing, [idx]⟩] ∧
      (Ctrl.applyEvent (.Overwrite idx old_val new_val) c).isSorted = false) ∧
    ((Ctrl.applyEvent .Done c).isSorted = true ∧
      (Ctrl.applyEvent .Done c).highlights = [] ∧
      (Ctrl.applyEvent .Done c).arrSt = c.arrSt) ∧
    ((Ctrl.applyEvent (.EnterRange lo hi) c).highlights = [] ∧
      (Ctrl.applyEvent (.EnterRange lo hi) c).isSorted = false ∧
      (Ctrl.applyEvent (.EnterRange lo hi) c).arrSt.rangeStack =
        (lo, hi) :: c.arrSt.rangeStack ∧
      (Ctrl.applyEvent (.EnterRange lo hi) c).arrSt.activeRange =
        some (lo, hi) ∧
      (Ctrl.applyEvent (.EnterRange lo hi) c).arrSt.array = c.arrSt.array) ∧
    ((Ctrl.applyEvent (.ExitRange lo hi) c).highlights = [] ∧
      (Ctrl.applyEvent (.ExitRange lo hi) c).isSorted = false ∧
      (Ctrl.applyEvent (.ExitRange lo hi) c).arrSt.rangeStack =
        c.arrSt.rangeStack.tail ∧
      (Ctrl.applyEvent (.ExitRange lo hi) c).arrSt.activeRange =
        c.arrSt.rangeStack.tail.head? ∧
      (Ctrl.applyEvent (.ExitRange lo hi) c).arrSt.array = c.arrSt.array) :=
  ⟨⟨rfl, rfl, rfl⟩, ⟨rfl, rfl⟩, ⟨rfl, rfl⟩, ⟨rfl, rfl, rfl⟩,
    ⟨rfl, rfl, rfl, rfl, rfl⟩, ⟨rfl, rfl, rfl, rfl, rfl⟩⟩

/-- C7 (counterexample): an `EnterRange` processed by the controller does
*not* leave the highlights unchanged — it clears the "comparing" highlight
set by the preceding `Compare`. -/
theorem enterRange_changes_highlights :
    (Ctrl.applyEvent (.EnterRange 0 1)
        (Ctrl.applyEvent (.Compare 0 1)
          (Ctrl.init [.Compare 0 1, .EnterRange 0 1] [5, 4]))).highlights ≠
      (Ctrl.applyEvent (.Compare 0 1)
        (Ctrl.init [.Compare 0 1, .EnterRange 0 1] [5, 4])).highlights := by
  decide

/-- Witness for C4 at a concrete run. -/
theorem seekTo_eq_seekZero_then_stepForward_witness :
    2 ≤ ([.Swap 0 1, .Overwrite 1 4 9, .Done] : List SortEvent).length ∧
    (Ctrl.seekTo ((2 : Nat) : Int)
        (Ctrl.init [.Swap 0 1, .Overwrite 1 4 9, .Done] [4, 7])).arrSt.array =
      (Ctrl.stepForward^[2] (Ctrl.seekTo 0
        (Ctrl.init [.Swap 0 1, .Overwrite 1 4 9, .Done] [4, 7]))).arrSt.array :=
  ⟨by decide,
    seekTo_eq_seekZero_then_stepForward [.Swap 0 1, .Overwrite 1 4 9, .Done]
      [4, 7] 2 (by decide)⟩

-- Speed preservation by every modelled controller operation other than
-- `setSpeed`.

theorem applyVisualStateForStep_speed (k : Nat) (c : Ctrl) :
    (Ctrl.applyVisualStateForStep k c).speed = c.speed := by
  unfold Ctrl.applyVisualStateForStep
  split
  · rfl
  · split
    · exact applyVisualState_speed _ _
    · rfl

theorem stepForward_speed (c : Ctrl) :
    (Ctrl.stepForward c).speed = c.speed := by
  unfold Ctrl.stepForward
  split
  · rfl
  · split
    · rfl
    · dsimp only
      split
      · exact applyEvent_speed _ _
      · exact applyEvent_speed _ _

theorem stepBackward_speed (c : Ctrl) :
    (Ctrl.stepBackward c).speed = c.speed := by
  unfold Ctrl.stepBackward
  split
  · rfl
  · try dsimp only
    split
    · rfl
    · try dsimp only
      split
      · exact applyVisualStateForStep_speed _ _
      · exact applyVisualStateForStep_speed _ _

theorem seekTo_speed (p : Int) (c : Ctrl) :
    (Ctrl.seekTo p c).speed = c.speed := by
  unfold Ctrl.seekTo Ctrl.resetArrayState
  dsimp only
  (repeat' split) <;> simp [applyVisualState_speed]

theorem reset_speed (c : Ctrl) : (Ctrl.reset c).speed = c.speed := by
  unfold Ctrl.reset Ctrl.resetArrayState
  dsimp only
  split <;> rfl

theorem setSpeed_bounds (x : ℚ) (c : Ctrl) :
    SPEED_MIN ≤ (Ctrl.setSpeed x c).speed ∧
      (Ctrl.setSpeed x c).speed ≤ SPEED_MAX := by
  refine ⟨le_max_left _ _, max_le ?_ (min_le_left _ _)⟩
  norm_num [SPEED_MIN, SPEED_MAX]

theorem applyOp_speed_bounds (op : CtrlOp) (c : Ctrl)
    (h1 : SPEED_MIN ≤ c.speed) (h2 : c.speed ≤ SPEED_MAX) :
    SPEED_MIN ≤ (Ctrl.applyOp op c).speed ∧
      (Ctrl.applyOp op c).speed ≤ SPEED_MAX := by
  cases op with
  | setSpeed x => exact setSpeed_bounds x c
  | stepForward =>
      show SPEED_MIN ≤ (Ctrl.stepForward c).speed ∧ (Ctrl.stepForward c).speed ≤ SPEED_MAX
      rw [stepForward_speed]; exact ⟨h1, h2⟩
  | stepBackward =>
      show SPEED_MIN ≤ (Ctrl.stepBackward c).speed ∧ (Ctrl.stepBackward c).speed ≤ SPEED_MAX
      rw [stepBackward_speed]; exact ⟨h1, h2⟩
  | seekTo p =>
      show SPEED_MIN ≤ (Ctrl.seekTo p c).speed ∧ (Ctrl.seekTo p c).speed ≤ SPEED_MAX
      rw [seekTo_speed]; exact ⟨h1, h2⟩
  | reset =>
      show SPEED_MIN ≤ (Ctrl.reset c).speed ∧ (Ctrl.reset c).speed ≤ SPEED_MAX
      rw [reset_speed]; exact ⟨h1, h2⟩

theorem applyOps_speed_bounds (ops : List CtrlOp) :
    ∀ c : Ctrl, SPEED_MIN ≤ c.speed → c.speed ≤ SPEED_MAX →
      SPEED_MIN ≤ (Ctrl.applyOps ops c).speed ∧
        (Ctrl.applyOps ops c).speed ≤ SPEED_MAX := by
  induction ops with
  | nil => intro c h1 h2; exact ⟨h1, h2⟩
  | cons op ops ih =>
      intro c h1 h2
      obtain ⟨g1, g2⟩ := applyOp_speed_bounds op c h1 h2
      exact ih (Ctrl.applyOp op c) g1 g2

/-- C10: `setSpeed` clamps into `[SPEED_MIN, SPEED_MAX] = [0.1, 10]` and
changes no other controller field; the initial speed is `SPEED_DEFAULT = 1`,
so after any sequence of modelled operations the speed stays in the
interval, which keeps `msPerEvent = 1000 / (60 * speed)` positive. -/
theorem setSpeed_clamps_speed_invariant :
    (∀ (x : ℚ) (c : Ctrl),
      SPEED_MIN ≤ (Ctrl.setSpeed x c).speed ∧
      (Ctrl.setSpeed x c).speed ≤ SPEED_MAX ∧
      (Ctrl.setSpeed x c).engine = c.engine ∧
      (Ctrl.setSpeed x c).initialArray = c.initialArray ∧
      (Ctrl.setSpeed x c).arrSt = c.arrSt ∧
      (Ctrl.setSpeed x c).highlights = c.highlights ∧
      (Ctrl.setSpeed x c).isSorted = c.isSorted ∧
      (Ctrl.setSpeed x c).currentStep = c.currentStep ∧
      (Ctrl.setSpeed x c).totalSteps = c.totalSteps ∧
      (Ctrl.setSpeed x c).playbackState = c.playbackState ∧
      (Ctrl.setSpeed x c).direction = c.direction) ∧
    (SPEED_DEFAULT = 1 ∧ SPEED_MIN = 1 / 10 ∧ SPEED_MAX = 10 ∧
      ∀ (events : List SortEvent) (array : List Int),
        (Ctrl.init events array).speed = SPEED_DEFAULT) ∧
    (∀ (ops : List CtrlOp) (events : List SortEvent) (array : List Int),
      SPEED_MIN ≤ (Ctrl.applyOps ops (Ctrl.init events array)).speed ∧
      (Ctrl.applyOps ops (Ctrl.init events array)).speed ≤ SPEED_MAX) ∧
    (∀ v : ℚ, SPEED_MIN ≤ v → 0 < msPerEvent v) := by
  refine ⟨fun x c => ?_, ⟨rfl, rfl, rfl, fun _ _ => rfl⟩, fun ops events array => ?_, fun v hv => ?_⟩
  · obtain ⟨g1, g2⟩ := setSpeed_bounds x c
    exact ⟨g1, g2, rfl, rfl, rfl, rfl, rfl, rfl, rfl, rfl, rfl⟩
  · exact applyOps_speed_bounds ops (Ctrl.init events array)
      (by norm_num [Ctrl.init, SPEED_MIN, SPEED_DEFAULT])
      (by norm_num [Ctrl.init, SPEED_MIN, SPEED_DEFAULT, SPEED_MAX])
  · have hv0 : 0 < v := lt_of_lt_of_le (by norm_num [SPEED_MIN]) hv
    simp only [msPerEvent, BASE_EVENTS_PER_SECOND]
    exact div_pos (by norm_num) (mul_pos (by norm_num) hv0)

/-- Witness for C10 at concrete inputs. -/
theorem setSpeed_clamps_speed_invariant_witness :
    SPEED_MIN ≤ (Ctrl.applyOps [.setSpeed 50, .stepForward]
        (Ctrl.init [.Done] [1])).speed ∧
    SPEED_MIN ≤ (1 : ℚ) ∧ 0 < msPerEvent 1 :=
  ⟨(setSpeed_clamps_speed_invariant.2.2.1 [.setSpeed 50, .stepForward]
      [.Done] [1]).1,
    by norm_num [SPEED_MIN],
    setSpeed_clamps_speed_invariant.2.2.2 1 (by norm_num [SPEED_MIN])⟩

/-! ## The streaming engine (`LiveEngine`)

`LiveEngine` wraps a resumable Wasm stepper.  Position counters
(`position`, `bufferStart`, `totalEventsGenerated`) are JS numbers that are
compared and subtracted; they are modelled as `Int`.  List offsets are
taken via `Int.toNat` — in every state reachable by the engine's own
operations these offsets are non-negative, where `toNat` agrees with JS
indexing. -/

/-- TS `BATCH_SIZE` from `LiveEngine`. -/
def BATCH_SIZE : Nat := 200

/-- TS `BUFFER_BATCHES` from `LiveEngine`. -/
def BUFFER_BATCHES : Nat := 3

/-- The `LiveEngine` state.  `remaining` is the stream of events the
stepper has yet to emit (see `stepperStep`); the other fields are the
class fields of `LiveEngine`. -/
structure LiveEngine : Type where
  remaining : List SortEvent
  hasStepper : Bool
  position : Int
  eventBuffer : List SortEvent
  bufferStart : Int
  totalEventsGenerated : Int
  done : Bool
  deriving DecidableEq, Repr

/-- Modelled from the spec: the algorithm provider's resumable stepper
(the Rust `LiveStepper`, which lives in `rust-core`, outside the web
sources): `advance(handle, limit)` returns up to `limit` next events in
order and `isFinished(handle)` reports completion.  The handle is modelled
as the list of events the run has yet to emit; one `step(limit)` call
yields the next `limit` events and the rest of the stream. -/
def stepperStep (limit : Nat) (remaining : List SortEvent) :
    List SortEvent × List SortEvent :=
  (remaining.take limit, remaining.drop limit)

/-- Modelled from the spec: `LiveStepper.is_done`, true when the stream has
been fully emitted. -/
def stepperIsDone (remaining : List SortEvent) : Bool := remaining.isEmpty

/-- The body of the `while` loop in `LiveEngine.fillBufferAhead`, entered
when `eventsAhead < targetSize` already held on entry (the TS code computes
`eventsAhead` as a `const` before the loop and never updates it, so the
loop condition `eventsAhead < targetSize` stays true and the loop only
stops through `is_done`): repeatedly step a batch, append it to the buffer,
accumulate the total, and set `done` when the stepper finishes.  Returns
`(remaining, buffer, total, doneFlag)`. -/
def fillLoop (remaining buffer : List SortEvent) (total : Int) :
    List SortEvent × List SortEvent × Int × Bool :=
  if stepperIsDone remaining then (remaining, buffer, total, false)
  else
    if stepperIsDone (stepperStep BATCH_SIZE remaining).2 then
      ((stepperStep BATCH_SIZE remaining).2,
        buffer ++ (stepperStep BATCH_SIZE remaining).1,
        total + (stepperStep BATCH_SIZE remaining).1.length, true)
    else
      fillLoop (stepperStep BATCH_SIZE remaining).2
        (buffer ++ (stepperStep BATCH_SIZE remaining).1)
        (total + (stepperStep BATCH_SIZE remaining).1.length)
termination_by remaining.length
decreasing_by
  simp only [stepperStep, List.length_drop]
  rename_i h1 _
  have hne : remaining ≠ [] := by
    intro h
    rw [h] at h1
    exact h1 rfl
  have hlen : 0 < remaining.length := List.length_pos.mpr hne
  have hB : 0 < BATCH_SIZE := by decide
  omega

/-- TS `LiveEngine.fillBufferAhead`: no-op without a stepper or once `done`;
otherwise, if the (once-computed) lookahead is below
`targetSize = BATCH_SIZE * BUFFER_BATCHES`, run the loop. -/
def LiveEngine.fillBufferAhead (s : LiveEngine) : LiveEngine :=
  if s.hasStepper = false ∨ s.done = true then s
  else
    let targetSize : Int := (BATCH_SIZE * BUFFER_BATCHES : Nat)
    let bufferOffset := s.position - s.bufferStart
    let eventsAhead := (s.eventBuffer.length : Int) - bufferOffset
    if eventsAhead < targetSize then
      let r := fillLoop s.remaining s.eventBuffer s.totalEventsGenerated
      { s with remaining := r.1, eventBuffer := r.2.1,
               totalEventsGenerated := r.2.2.1, done := r.2.2.2 }
    else s

/-- TS `LiveEngine.ensureBufferAhead`: refill when the lookahead drops below
`BATCH_SIZE * 2`. -/
def LiveEngine.ensureBufferAhead (s : LiveEngine) : LiveEngine :=
  let bufferOffset := s.position - s.bufferStart
  let eventsAhead := (s.eventBuffer.length : Int) - bufferOffset
  let threshold : Int := (BATCH_SIZE * 2 : Nat)
  if eventsAhead < threshold then LiveEngine.fillBufferAhead s else s

/-- TS `LiveEngine.trimBufferBehind`: drop consumed events more than
`BATCH_SIZE * BUFFER_BATCHES` behind the cursor and advance
`bufferStart`. -/
def LiveEngine.trimBufferBehind (s : LiveEngine) : LiveEngine :=
  let maxBehind : Int := (BATCH_SIZE * BUFFER_BATCHES : Nat)
  let eventsBehind := s.position - s.bufferStart
  if maxBehind < eventsBehind then
    let trimCount := eventsBehind - maxBehind
    { s with eventBuffer := s.eventBuffer.drop trimCount.toNat,
             bufferStart := s.bufferStart + trimCount }
  else s

/-- TS `LiveEngine.getNextEvents`: ensure lookahead, slice up to `count`
events at the cursor, advance the cursor by the number actually available,
then trim behind. -/
def LiveEngine.getNextEvents (count : Nat) (s : LiveEngine) :
    List SortEvent × LiveEngine :=
  if s.hasStepper = false then ([], s)
  else
    let s₁ := LiveEngine.ensureBufferAhead s
    let bufferOffset := s₁.position - s₁.bufferStart
    let available := (s₁.eventBuffer.drop bufferOffset.toNat).take count
    let s₂ := { s₁ with position := s₁.position + available.length }
    (available, LiveEngine.trimBufferBehind s₂)

/-- TS `LiveEngine.getEventAt`: `null` below `bufferStart` or at/after the end
of the buffer, otherwise the buffered event. -/
def LiveEngine.getEventAt (index : Int) (s : LiveEngine) : Option SortEvent :=
  if index < s.bufferStart then none
  else
    if (s.eventBuffer.length : Int) ≤ index - s.bufferStart then none
    else s.eventBuffer[(index - s.bufferStart).toNat]?

/-- TS `LiveEngine.getTotalEvents`: the running count. -/
def LiveEngine.getTotalEvents (s : LiveEngine) : Int :=
  s.totalEventsGenerated

/-- TS `LiveEngine.seek`: reposition only within
`[bufferStart, bufferStart + eventBuffer.length]`, otherwise a no-op. -/
def LiveEngine.seek (position : Int) (s : LiveEngine) : LiveEngine :=
  if s.bufferStart ≤ position ∧
      position ≤ s.bufferStart + s.eventBuffer.length then
    { s with position := position }
  else s

/-- TS `LiveEngine.isDone`:
`this.done && this.position >= this.totalEventsGenerated`. -/
def LiveEngine.isDone (s : LiveEngine) : Bool :=
  s.done && decide (s.totalEventsGenerated ≤ s.position)

/-- TS `LiveEngine.canSeek` is the constant `false`. -/
def LiveEngine.canSeek : Bool := false

/-- The `LiveEngine` state right after `initialize` with a stepper whose
run emits `stream`: fresh counters, then the pre-fill. -/
def LiveEngine.init (stream : List SortEvent) : LiveEngine :=
  LiveEngine.fillBufferAhead
    { remaining := stream, hasStepper := true, position := 0,
      eventBuffer := [], bufferStart := 0, totalEventsGenerated := 0,
      done := false }

/-- Because `eventsAhead` is not re-computed inside the loop, one entry into
the fill loop drains the entire remaining stream into the buffer. -/
theorem fillLoop_spec (n : Nat) :
    ∀ (remaining buffer : List SortEvent) (total : Int),
      remaining.length ≤ n → remaining ≠ [] →
      fillLoop remaining buffer total =
        ([], buffer ++ remaining, total + remaining.length, true) := by
  induction n with
  | zero =>
      intro remaining _ _ hlen hne
      exact absurd (List.length_eq_zero.mp (Nat.le_zero.mp hlen)) hne
  | succ n ih =>
      intro remaining buffer total hlen hne
      rw [fillLoop]
      rw [if_neg (by simp [stepperIsDone, hne])]
      by_cases hdrop : stepperIsDone (stepperStep BATCH_SIZE remaining).2 = true
      · rw [if_pos hdrop]
        simp only [stepperStep, stepperIsDone, List.isEmpty_iff] at hdrop
        have htake : remaining.take BATCH_SIZE = remaining := by
          apply List.take_of_length_le
          have := congrArg List.length hdrop
          simp at this
          omega
        simp [stepperStep, hdrop, htake]
      · rw [if_neg hdrop]
        simp only [stepperStep, stepperIsDone, List.isEmpty_iff] at hdrop
        have hBpos : 0 < BATCH_SIZE := by decide
        have hpos : 0 < remaining.length := List.length_pos.mpr hne
        have hdlen : (remaining.drop BATCH_SIZE).length ≤ n := by
          simp only [List.length_drop]
          omega
        rw [ih (stepperStep BATCH_SIZE remaining).2
          (buffer ++ (stepperStep BATCH_SIZE remaining).1)
          (total + (stepperStep BATCH_SIZE remaining).1.length)
          hdlen hdrop]
        simp only [stepperStep, List.append_assoc, List.take_append_drop,
          List.length_take, List.length_drop, Prod.mk.injEq, true_and,
          and_true]
        push_cast
        omega

/-- After `initialize` on a non-empty run, the whole run sits in the
buffer: the fill loop ran to stream exhaustion. -/
theorem liveInit_spec (stream : List SortEvent) (hne : stream ≠ []) :
    LiveEngine.init stream =
      { remaining := [], hasStepper := true, position := 0,
        eventBuffer := stream, bufferStart := 0,
        totalEventsGenerated := stream.length, done := true } := by
  unfold LiveEngine.init LiveEngine.fillBufferAhead
  rw [if_neg (by simp), if_pos (by norm_num [BATCH_SIZE, BUFFER_BATCHES])]
  rw [fillLoop_spec stream.length stream [] 0 le_rfl hne]
  simp

theorem trimBufferBehind_counters (s : LiveEngine) :
    (LiveEngine.trimBufferBehind s).position = s.position ∧
    (LiveEngine.trimBufferBehind s).totalEventsGenerated =
      s.totalEventsGenerated ∧
    (LiveEngine.trimBufferBehind s).done = s.done := by
  unfold LiveEngine.trimBufferBehind
  dsimp only
  split <;> exact ⟨rfl, rfl, rfl⟩

/-- C3: the streaming engine does *not* keep the buffer within
`BATCH_SIZE * BUFFER_BATCHES * 2 = 1200` events.  `fillBufferAhead`
computes `eventsAhead` once, before its `while` loop, and never updates it
inside the loop, so initializing on a 1300-event run (or the spec's
10,000-event run) materializes the entire run: the buffer holds 1300
events right after `initialize`. -/
theorem liveInit_buffer_exceeds_bound :
    BATCH_SIZE * BUFFER_BATCHES * 2 = 1200 ∧
    (LiveEngine.init
        (List.replicate 1300 (.Compare 0 1))).eventBuffer.length = 1300 := by
  constructor
  · rfl
  · rw [liveInit_spec _ (by
      intro h
      have hl := congrArg List.length h
      rw [List.length_replicate] at hl
      exact absurd hl (by decide))]
    show (List.replicate 1300 (SortEvent.Compare 0 1)).length = 1300
    rw [List.length_replicate]

/-- C6 (counterexample): for a materializing engine whose run is the single
event `Done`, the terminal event has been generated at initialization, yet
`isDone()` is `false` because the cursor has consumed nothing. -/
theorem pregen_isDone_false_with_done_generated :
    SortEvent.Done ∈ (PregenEngine.init [SortEvent.Done]).events ∧
    PregenEngine.isDone (PregenEngine.init [SortEvent.Done]) = false := by
  decide

/-- C6 (amended): `isDone()` is consumption-dependent in both engines: after
initializing and consuming `k` events through `getNextEvents`, it is true
exactly when `k` covers the whole generated run — `position ≥ total` for the
materializing engine, and `done && position ≥ totalEventsGenerated` for the
streaming engine. -/
theorem isDone_iff_all_generated_consumed :
    (∀ (events : List SortEvent) (k : Nat),
      PregenEngine.isDone
          ((PregenEngine.getNextEvents k (PregenEngine.init events)).2) =
        decide (events.length ≤ k)) ∧
    (∀ (stream : List SortEvent) (k : Nat), stream ≠ [] →
      LiveEngine.isDone
          ((LiveEngine.getNextEvents k (LiveEngine.init stream)).2) =
        decide (stream.length ≤ k)) := by
  constructor
  · intro events k
    simp only [PregenEngine.getNextEvents, PregenEngine.init,
      PregenEngine.isDone]
    norm_num
  · intro stream k hne
    rw [liveInit_spec stream hne]
    unfold LiveEngine.getNextEvents
    rw [if_neg (by simp)]
    have hfill : LiveEngine.fillBufferAhead
        { remaining := [], hasStepper := true, position := 0,
          eventBuffer := stream, bufferStart := 0,
          totalEventsGenerated := stream.length, done := true } =
        { remaining := [], hasStepper := true, position := 0,
          eventBuffer := stream, bufferStart := 0,
          totalEventsGenerated := stream.length, done := true } := by
      unfold LiveEngine.fillBufferAhead
      rw [if_pos (Or.inr rfl)]
    have hens : LiveEngine.ensureBufferAhead
        { remaining := [], hasStepper := true, position := 0,
          eventBuffer := stream, bufferStart := 0,
          totalEventsGenerated := stream.length, done := true } =
        { remaining := [], hasStepper := true, position := 0,
          eventBuffer := stream, bufferStart := 0,
          totalEventsGenerated := stream.length, done := true } := by
      unfold LiveEngine.ensureBufferAhead
      rw [hfill, ite_self]
    rw [hens]
    dsimp only
    obtain ⟨hp, ht, hd⟩ := trimBufferBehind_counters
      { remaining := [], hasStepper := true,
        position := 0 + ((stream.drop ((0 : Int) - 0).toNat).take k).length,
        eventBuffer := stream, bufferStart := 0,
        totalEventsGenerated := stream.length, done := true }
    unfold LiveEngine.isDone
    rw [hp, ht, hd]
    simp only [Int.zero_sub, Int.sub_zero]
    norm_num [List.length_take]

/-- Witness for the amended C6 at concrete runs. -/
theorem isDone_iff_all_generated_consumed_witness :
    PregenEngine.isDone
        ((PregenEngine.getNextEvents 1
          (PregenEngine.init [SortEvent.Done])).2) =
      decide (([SortEvent.Done] : List SortEvent).length ≤ 1) ∧
    ([SortEvent.Done] : List SortEvent) ≠ [] ∧
    LiveEngine.isDone
        ((LiveEngine.getNextEvents 0
          (LiveEngine.init [SortEvent.Done])).2) =
      decide (([SortEvent.Done] : List SortEvent).length ≤ 0) :=
  ⟨isDone_iff_all_generated_consumed.1 [SortEvent.Done] 1,
    by decide,
    isDone_iff_all_generated_consumed.2 [SortEvent.Done] 0 (by decide)⟩

/-- C8: the streaming engine's `getEventAt(index)` returns the buffered
event exactly when `bufferStart ≤ index < bufferStart + eventBuffer.length`
and the non-error `none` for every index outside the window — in
particular for index 100 once the window has moved past it.  The function
is total: no lookup throws. -/
theorem live_getEventAt_window :
    (∀ (s : LiveEngine) (index : Int),
      LiveEngine.getEventAt index s =
        if s.bufferStart ≤ index ∧
            index < s.bufferStart + s.eventBuffer.length then
          s.eventBuffer[(index - s.bufferStart).toNat]?
        else none) ∧
    (∀ (s : LiveEngine) (index : Int),
      s.bufferStart ≤ index → index < s.bufferStart + s.eventBuffer.length →
        (LiveEngine.getEventAt index s).isSome = true) ∧
    (∀ s : LiveEngine, 100 < s.bufferStart →
      LiveEngine.getEventAt 100 s = none) := by
  have hmain : ∀ (s : LiveEngine) (index : Int),
      LiveEngine.getEventAt index s =
        if s.bufferStart ≤ index ∧
            index < s.bufferStart + s.eventBuffer.length then
          s.eventBuffer[(index - s.bufferStart).toNat]?
        else none := by
    intro s index
    unfold LiveEngine.getEventAt
    split_ifs <;> first | rfl | omega
  refine ⟨hmain, ?_, ?_⟩
  · intro s index h1 h2
    rw [hmain s index, if_pos ⟨h1, h2⟩,
      List.getElem?_eq_getElem (by omega)]
    rfl
  · intro s h
    rw [hmain s 100, if_neg (by omega)]

/-- Witness for C8 at a buffer window `[4400, 4402)` far past index 100. -/
theorem live_getEventAt_window_witness :
    LiveEngine.getEventAt 100
        { remaining := [], hasStepper := true, position := 4400,
          eventBuffer := [.Compare 0 1, .Done], bufferStart := 4400,
          totalEventsGenerated := 10000, done := true } = none ∧
    (LiveEngine.getEventAt 4401
        { remaining := [], hasStepper := true, position := 4400,
          eventBuffer := [.Compare 0 1, .Done], bufferStart := 4400,
          totalEventsGenerated := 10000, done := true }).isSome = true :=
  ⟨live_getEventAt_window.2.2
      { remaining := [], hasStepper := true, position := 4400,
        eventBuffer := [.Compare 0 1, .Done], bufferStart := 4400,
        totalEventsGenerated := 10000, done := true } (by decide),
    live_getEventAt_window.2.1
      { remaining := [], hasStepper := true, position := 4400,
        eventBuffer := [.Compare 0 1, .Done], bufferStart := 4400,
        totalEventsGenerated := 10000, done := true } 4401
      (by decide) (by decide)⟩

/-- C9: `seek` never errors on out-of-range targets: the materializing
engine clamps its cursor into `[0, events.length]` (the cursor is a `Nat`,
so `0 ≤ position` always), and the streaming engine's `seek` is a strict
no-op whenever the target lies outside
`[bufferStart, bufferStart + eventBuffer.length]`, repositioning exactly
when it lies inside.  Both are total functions: neither throws. -/
theorem seek_clamps_or_noop :
    (∀ (p : Int) (s : PregenEngine),
      (PregenEngine.seek p s).position ≤ s.events.length) ∧
    (∀ (p : Int) (s : LiveEngine),
      (p < s.bufferStart ∨ s.bufferStart + s.eventBuffer.length < p) →
        LiveEngine.seek p s = s) ∧
    (∀ (p : Int) (s : LiveEngine),
      s.bufferStart ≤ p → p ≤ s.bufferStart + s.eventBuffer.length →
        (LiveEngine.seek p s).position = p) := by
  refine ⟨fun p s => ?_, fun p s h => ?_, fun p s h1 h2 => ?_⟩
  · show (max 0 (min p (s.events.length : Int))).toNat ≤ s.events.length
    omega
  · unfold LiveEngine.seek
    rw [if_neg (by omega)]
  · unfold LiveEngine.seek
    rw [if_pos ⟨h1, h2⟩]

/-- Witness for C9: an in-range pregen seek target, an out-of-window live
seek (no-op), and an in-window live seek. -/
theorem seek_clamps_or_noop_witness :
    (PregenEngine.seek 99 (PregenEngine.init [.Done])).position ≤
      (PregenEngine.init [.Done]).events.length ∧
    LiveEngine.seek (-5)
        { remaining := [], hasStepper := true, position := 0,
          eventBuffer := [.Done], bufferStart := 0,
          totalEventsGenerated := 1, done := true } =
      { remaining := [], hasStepper := true, position := 0,
        eventBuffer := [.Done], bufferStart := 0,
        totalEventsGenerated := 1, done := true } ∧
    (LiveEngine.seek 1
        { remaining := [], hasStepper := true, position := 0,
          eventBuffer := [.Done], bufferStart := 0,
          totalEventsGenerated := 1, done := true }).position = 1 :=
  ⟨seek_clamps_or_noop.1 99 (PregenEngine.init [.Done]),
    seek_clamps_or_noop.2.1 (-5)
      { remaining := [], hasStepper := true, position := 0,
        eventBuffer := [.Done], bufferStart := 0,
        totalEventsGenerated := 1, done := true } (by decide),
    seek_clamps_or_noop.2.2 1
      { remaining := [], hasStepper := true, position := 0,
        eventBuffer := [.Done], bufferStart := 0,
        totalEventsGenerated := 1, done := true } (by decide) (by decide)⟩
